import Mathlib

/-!
Verification of the certificate-generation pipeline in `app.py`
(`generate_and_zip_pdfs`): the function reads one column of one sheet of an
Excel workbook, drops missing cells, and pairs the resulting filename list
positionally with the pages of a PDF, writing each page into an in-memory
zip archive under the (".pdf"-normalized) filename.

Modelling conventions (shallow embedding of the Python source):

* A PDF page is opaque: the pipeline never inspects a page, it only copies
  page `i` of the reader into a fresh single-page writer and serializes it
  (pypdf is an external collaborator, assumed injective per page).  A page is
  therefore modelled by an opaque identifier `Page := Nat`, and the document
  by `List Page`; "the entry holds page i" is "the entry's content is the
  identifier of page i".
* A pandas cell (`Cell`) is either missing (`NaN` — pandas surfaces blank
  Excel cells as `NaN`), a string, or a non-string scalar such as a number
  (`Cell.num`).  `Series.dropna().tolist()` keeps the non-missing cells, in
  order, as Python values (`PyVal`).
* `str.lower()` maps each character to lower case; `str.endswith(t)` checks
  that the character sequence `t` is a suffix of the receiver's character
  sequence.  Both are embedded on `String.data` (`pyLower`, `pyEndsWith`)
  because the inputs of interest are plain text.
* `zipfile.ZipFile.writestr` appends a `(name, content)` entry to the archive
  in write order; when a name repeats, standard readers (including Python's
  own `ZipFile`, whose per-name index keeps the last entry, and sequential
  extraction, which overwrites) resolve the name to the LAST entry written.
  The raw archive is the entry list in write order; `extractZip` computes the
  per-name resolved view (last write wins).
* `st.progress((i+1)/len(filenames))` reports a fraction; the reported
  fractions are modelled as exact rationals (the archive library and the
  progress display are deterministic collaborators).
* The source signals failure by logging `st.error` and returning `None`; the
  three `None` paths are distinguishable by the branch that produced them
  (missing column at line 16, `ValueError` i.e. missing sheet at line 60,
  the catch-all at line 63) and are modelled by the three failure
  constructors of `GenResult`.  A run that returns the zip buffer is
  `GenResult.ok`.
-/

/-- A PDF page, identified opaquely; `pdf_reader.pages` is a `List Page`. -/
abbrev Page := Nat

/-- A Python value delivered by `Series.tolist()`: a string, or a non-string
scalar (e.g. a number read from a numeric Excel cell). -/
inductive PyVal where
  | str (s : String)
  | num (q : Int)
deriving DecidableEq, Repr

/-- A pandas cell of the selected column: missing (`NaN`; pandas reads blank
Excel cells as `NaN`), a string, or a non-string scalar. -/
inductive Cell where
  | missing
  | str (s : String)
  | num (q : Int)
deriving DecidableEq, Repr

/-- Python's `str.lower()`: lower-case every character. -/
def pyLower (s : String) : String :=
  ⟨s.data.map Char.toLower⟩

/-- Python's `str.endswith(suffix)`: the suffix's character sequence is a
suffix of the receiver's character sequence. -/
def pyEndsWith (s suffix : String) : Bool :=
  suffix.data.isSuffixOf s.data

/-- Lines 41–42 of `app.py`:
`if not filename.lower().endswith('.pdf'): filename += '.pdf'`. -/
def normalizePdfName (s : String) : String :=
  if pyEndsWith (pyLower s) ".pdf" then s else s ++ ".pdf"

/-- Line 21 of `app.py`: `df[filename_col].dropna().tolist()` — drop missing
cells, keep the remaining values in order as Python values. -/
def dropnaToList (cells : List Cell) : List PyVal :=
  cells.filterMap fun c =>
    match c with
    | .missing => none
    | .str s => some (.str s)
    | .num q => some (.num q)

/-- One sheet of the workbook: its columns, each a header with its cells. -/
structure Sheet where
  cols : List (String × List Cell)
deriving DecidableEq, Repr

/-- `df.columns`: the column headers of the sheet. -/
def Sheet.columns (sh : Sheet) : List String :=
  sh.cols.map Prod.fst

/-- `df[name]`: the cells of the named column (first match). -/
def Sheet.col (sh : Sheet) (name : String) : List Cell :=
  match sh.cols.find? (fun p => p.1 == name) with
  | some p => p.2
  | none => []

/-- Line 15 of `app.py`: `pd.read_excel(excel_file, sheet_name=sheet_name)` —
look the sheet up by name; a missing sheet raises `ValueError` (modelled by
`none`). -/
def readExcel (workbook : List (String × Sheet)) (sheet_name : String) :
    Option Sheet :=
  match workbook.find? (fun p => p.1 == sheet_name) with
  | some p => some p.2
  | none => none

/-- The observable outcome of a successful run: whether the `M > N` advisory
warning (line 27–28) was emitted, the zip entries in write order
(line 53, `zip_f.writestr`), and the reported progress fractions (line 55). -/
structure RunOutput where
  advisory : Bool
  archive : List (String × Page)
  progress : List ℚ
deriving DecidableEq, Repr

/-- Lines 36–55 of `app.py`: the per-filename loop.  `M` is
`len(filenames)`, `N` is `num_pdf_pages`, `i` the running index.  The loop
breaks once `i + 1 > N`; a non-string filename raises `AttributeError` at
`filename.lower()` (modelled by `none`, which aborts the whole run); a string
filename is ".pdf"-normalized and written with the content of page `i`, then
progress `(i+1)/M` is reported. -/
def zipLoop (M N : Nat) (pages : List Page) :
    List PyVal → Nat → Option (List (String × Page) × List ℚ)
  | [], _ => some ([], [])
  | v :: vs, i =>
    if i + 1 > N then
      some ([], [])
    else
      match v with
      | .num _ => none
      | .str s =>
        match zipLoop M N pages vs (i + 1) with
        | none => none
        | some (es, ps) =>
          some ((normalizePdfName s, pages.getD i 0) :: es,
                ((i : ℚ) + 1) / (M : ℚ) :: ps)

/-- Lines 24–58 of `app.py`, i.e. the run once `filenames` is in hand: count
the pages, record whether the `M > N` warning fires, run the loop, and return
the assembled archive; `none` is the catch-all failure path (an exception
escaped the loop, so no archive at all is delivered). -/
def pipeline (pages : List Page) (filenames : List PyVal) : Option RunOutput :=
  match zipLoop filenames.length pages.length pages filenames 0 with
  | none => none
  | some (es, ps) =>
    some ⟨decide (pages.length < filenames.length), es, ps⟩

/-- The result of `generate_and_zip_pdfs`: the zip buffer, or one of the three
distinguishable failure paths (missing column with the available headers,
missing sheet, catch-all). -/
inductive GenResult where
  | ok (out : RunOutput)
  | columnNotFound (available : List String)
  | sheetNotFound
  | unexpectedFailure
deriving DecidableEq, Repr

/-- `generate_and_zip_pdfs` of `app.py`, whole function: read the sheet
(missing sheet → `ValueError` → `sheetNotFound`), validate the column
(missing → `columnNotFound` with the available headers), extract the
filename list, and run the pairing loop (an escaped exception →
`unexpectedFailure`). -/
def generate_and_zip_pdfs (pages : List Page) (workbook : List (String × Sheet))
    (sheet_name filename_col : String) : GenResult :=
  match readExcel workbook sheet_name with
  | none => .sheetNotFound
  | some df =>
    if df.columns.contains filename_col then
      match pipeline pages (dropnaToList (df.col filename_col)) with
      | none => .unexpectedFailure
      | some out => .ok out
    else
      .columnNotFound df.columns

/-- The per-name resolved view of a zip archive: a reader that resolves each
name to its content (Python's `ZipFile` name index, or sequential extraction
into a directory) sees, for every name, the last entry written under it.
`extractZip` keeps, for each name, exactly its last occurrence. -/
def extractZip : List (String × Page) → List (String × Page)
  | [] => []
  | e :: rest =>
    if rest.any (fun p => p.1 == e.1) then extractZip rest
    else e :: extractZip rest

/-- Spec-side reading of "ends with \".pdf\" case-insensitively": the last
four characters, lower-cased, are `.pdf`. -/
def hasPdfSuffixCI (s : String) : Bool :=
  (s.data.map Char.toLower).drop ((s.data.map Char.toLower).length - 4)
    == ['.', 'p', 'd', 'f']

/-! ### Characterization of the loop on well-formed (all-string) name lists -/

/-- On an all-string filename list the loop succeeds and produces, for each
`j` with `i + j < N` and `j < names.length`, the entry
`(normalizePdfName names[j], pages[i+j])` and the progress fraction
`(i+j+1)/M`, in iteration order. -/
theorem zipLoop_str (M N : Nat) (pages : List Page) :
    ∀ (names : List String) (i : Nat),
    zipLoop M N pages (names.map PyVal.str) i =
      some ((List.range (min (N - i) names.length)).map
              (fun j => (normalizePdfName (names.getD j ""), pages.getD (i + j) 0)),
            (List.range (min (N - i) names.length)).map
              (fun j : Nat => ((i : ℚ) + (j : ℚ) + 1) / (M : ℚ)))
  | [], i => by simp [zipLoop]
  | n :: ns, i => by
    rw [List.map_cons, zipLoop]
    by_cases h : i + 1 > N
    · have h0 : N - i = 0 := by omega
      simp [h, h0]
    · have hmin : min (N - i) (ns.length + 1) = min (N - (i + 1)) ns.length + 1 := by
        omega
      simp only [if_neg h, zipLoop_str M N pages ns (i + 1), List.length_cons]
      rw [hmin]
      refine congrArg some (Prod.ext ?_ ?_) <;> simp only
      · rw [List.range_succ_eq_map, List.map_cons, List.map_map]
        refine congrArg₂ List.cons (by simp) ?_
        refine List.map_congr_left fun j _ => ?_
        simp only [Function.comp_apply, Nat.succ_eq_add_one, List.getD_cons_succ]
        have hidx : i + 1 + j = i + (j + 1) := by omega
        rw [hidx]
      · rw [List.range_succ_eq_map, List.map_cons, List.map_map]
        refine congrArg₂ List.cons (by norm_num) ?_
        refine List.map_congr_left fun j _ => ?_
        simp only [Function.comp_apply, Nat.succ_eq_add_one]
        push_cast
        ring_nf

/-- Specialization of `zipLoop_str` to the whole run: entry `j` of the archive
is page `j` under the normalized name `j`, and the `j`-th reported fraction is
`(j+1)/M`, for `j < min N M`. -/
theorem pipeline_str (pages : List Page) (names : List String) :
    pipeline pages (names.map PyVal.str) =
      some ⟨decide (pages.length < names.length),
            (List.range (min pages.length names.length)).map
              (fun j => (normalizePdfName (names.getD j ""), pages.getD j 0)),
            (List.range (min pages.length names.length)).map
              (fun j : Nat => ((j : ℚ) + 1) / ((names.length : Nat) : ℚ))⟩ := by
  unfold pipeline
  rw [List.length_map, zipLoop_str names.length pages.length pages names 0]
  simp only [Nat.sub_zero, Nat.zero_add, Nat.cast_zero, zero_add]

/-! ### Properties of the per-name resolved archive view -/

/-- With pairwise-distinct names the resolved view is the raw entry list. -/
theorem extractZip_eq_self (es : List (String × Page))
    (h : (es.map Prod.fst).Nodup) : extractZip es = es := by
  induction es with
  | nil => rfl
  | cons e rest ih =>
    rw [List.map_cons, List.nodup_cons] at h
    have hany : rest.any (fun p => p.1 == e.1) = false := by
      rw [List.any_eq_false]
      intro p hp hpe
      exact h.1 (List.mem_map.mpr ⟨p, hp, beq_iff_eq.mp hpe⟩)
    simp [extractZip, hany, ih h.2]

/-- Resolving never grows the archive. -/
theorem extractZip_length_le (es : List (String × Page)) :
    (extractZip es).length ≤ es.length := by
  induction es with
  | nil => simp [extractZip]
  | cons e rest ih =>
    rw [extractZip]
    by_cases h : rest.any (fun p => p.1 == e.1)
    · rw [if_pos h]
      exact ih.trans (Nat.le_succ _)
    · rw [if_neg h]
      simpa using Nat.succ_le_succ ih

/-- A repeated name makes the resolved view strictly smaller than the raw
entry list. -/
theorem extractZip_length_lt (es : List (String × Page))
    (h : ¬ (es.map Prod.fst).Nodup) : (extractZip es).length < es.length := by
  induction es with
  | nil => simp at h
  | cons e rest ih =>
    rw [extractZip]
    by_cases hany : rest.any (fun p => p.1 == e.1)
    · rw [if_pos hany]
      exact Nat.lt_succ_of_le (extractZip_length_le rest)
    · rw [if_neg hany]
      have hnotin : e.1 ∉ rest.map Prod.fst := by
        intro hmem
        obtain ⟨p, hp, hpe⟩ := List.mem_map.mp hmem
        exact hany (List.any_eq_true.mpr ⟨p, hp, beq_iff_eq.mpr hpe⟩)
      have hrest : ¬ (rest.map Prod.fst).Nodup := by
        intro hn
        exact h (by rw [List.map_cons, List.nodup_cons]; exact ⟨hnotin, hn⟩)
      simpa using Nat.succ_lt_succ (ih hrest)

/-- A predicate failing on every element fails on the reversed list. -/
theorem find?_reverse_eq_none {α : Type} (p : α → Bool) (l : List α)
    (h : l.any p = false) : l.reverse.find? p = none := by
  rw [List.find?_eq_none]
  intro x hx
  exact (List.any_eq_false.mp h) x (List.mem_reverse.mp hx)

/-- The entries of the resolved view carrying a given name are exactly the
last raw entry written under that name (if any). -/
theorem extractZip_filter (f : String) (es : List (String × Page)) :
    (extractZip es).filter (fun p => p.1 == f) =
      (es.reverse.find? (fun p => p.1 == f)).toList := by
  induction es with
  | nil => rfl
  | cons e rest ih =>
    rw [extractZip, List.reverse_cons, List.find?_append]
    by_cases hany : rest.any (fun p => p.1 == e.1)
    · rw [if_pos hany]
      cases hfind : rest.reverse.find? (fun p => p.1 == f) with
      | some x => rw [ih, hfind]; rfl
      | none =>
        by_cases hef : (e.1 == f) = true
        · exfalso
          obtain ⟨p, hp, hpe⟩ := List.any_eq_true.mp hany
          have hpf : (p.1 == f) = true := by
            rw [beq_iff_eq] at hpe hef ⊢
            rw [hpe, hef]
          exact (List.find?_eq_none.mp hfind) p (List.mem_reverse.mpr hp) hpf
        · rw [ih, hfind]
          simp [List.find?, hef]
    · rw [if_neg hany]
      by_cases hef : (e.1 == f) = true
      · have hnof : rest.any (fun p => p.1 == f) = false := by
          rw [List.any_eq_false]
          intro p hp hpf
          apply hany
          refine List.any_eq_true.mpr ⟨p, hp, ?_⟩
          rw [beq_iff_eq] at hpf hef ⊢
          rw [hpf, hef]
        rw [List.filter_cons, if_pos hef, ih,
          find?_reverse_eq_none _ _ hnof]
        simp [List.find?, hef]
      · rw [List.filter_cons, if_neg hef, ih]
        cases hfind : rest.reverse.find? (fun p => p.1 == f) with
        | some x => rfl
        | none => simp [List.find?, hef]

/-- In a range-indexed entry list, searching from the back for a name finds
the entry of the greatest index carrying that name. -/
theorem find?_reverse_rangeMap (g : Nat → String × Page) (f : String) :
    ∀ (t j : Nat), j < t → (g j).1 = f →
    (∀ k, j < k → k < t → (g k).1 ≠ f) →
    ((List.range t).map g).reverse.find? (fun p => p.1 == f) = some (g j)
  | 0, j, hj, _, _ => absurd hj (Nat.not_lt_zero j)
  | t + 1, j, hj, hgj, hlast => by
    rw [List.range_succ, List.map_append, List.reverse_append]
    simp only [List.map_cons, List.map_nil, List.reverse_cons, List.reverse_nil,
      List.nil_append, List.cons_append, List.singleton_append]
    by_cases hgt : ((g t).1 == f) = true
    · have hjt : j = t := by
        by_contra hne
        exact hlast t (by omega) (Nat.lt_succ_self t) (beq_iff_eq.mp hgt)
      simp only [List.find?_cons, hgt, hjt]
    · have hjt : j < t := by
        rcases Nat.lt_succ_iff_lt_or_eq.mp hj with h | h
        · exact h
        · exact absurd (beq_iff_eq.mpr (h ▸ hgj)) hgt
      have hgt' : ((g t).1 == f) = false := by simpa using hgt
      simp only [List.find?_cons, hgt']
      exact find?_reverse_rangeMap g f t j hjt hgj
        (fun k h1 h2 => hlast k h1 (Nat.lt_succ_of_lt h2))

/-- Reading a list through `getD` along `range t` is taking its first `t`
elements (for `t` within bounds), mapped. -/
theorem map_range_getD {α β : Type} (l : List α) (d : α) (g : α → β) (t : Nat)
    (ht : t ≤ l.length) :
    (List.range t).map (fun i => g (l.getD i d)) = (l.map g).take t := by
  apply List.ext_getElem
  · simp [ht]
  · intro i h1 h2
    have hi : i < l.length := by
      simp only [List.length_map, List.length_range] at h1
      omega
    simp only [List.getElem_map, List.getElem_range, List.getElem_take]
    rw [List.getD_eq_getElem _ _ hi]

/-! ### The claims -/

/-- C1: for every document with `N` pages and every name list with `M`
entries whose normalized filenames are pairwise distinct, the run succeeds
and the archive holds exactly `min N M` entries, in iteration order
`0..min N M - 1`, entry `i` being page `i` stored under (the normalized)
name `i`; with distinct names the resolved view is the entry list itself. -/
theorem C1_min_entries_iteration_order (pages : List Page) (names : List String)
    (hnodup : (names.map normalizePdfName).Nodup) :
    ∃ out, pipeline pages (names.map PyVal.str) = some out ∧
      out.archive = (List.range (min pages.length names.length)).map
          (fun i => (normalizePdfName (names.getD i ""), pages.getD i 0)) ∧
      out.archive.length = min pages.length names.length ∧
      extractZip out.archive = out.archive := by
  refine ⟨_, pipeline_str pages names, rfl, by simp, ?_⟩
  apply extractZip_eq_self
  rw [List.map_map]
  show ((List.range (min pages.length names.length)).map
      (fun i => normalizePdfName (names.getD i ""))).Nodup
  rw [map_range_getD names "" normalizePdfName _ (Nat.min_le_right _ _)]
  exact hnodup.sublist (List.take_sublist _ _)

/-- Witness for C1 at the spec's scenario: three pages, names
`["cert_x", "cert_y.pdf", "cert_z"]`. -/
theorem C1_min_entries_iteration_order_witness :
    ∃ out, pipeline [10, 20, 30] (["cert_x", "cert_y.pdf", "cert_z"].map PyVal.str) = some out ∧
      out.archive = (List.range (min [10, 20, 30].length ["cert_x", "cert_y.pdf", "cert_z"].length)).map
          (fun i => (normalizePdfName (["cert_x", "cert_y.pdf", "cert_z"].getD i ""), [10, 20, 30].getD i 0)) ∧
      out.archive.length = min [10, 20, 30].length ["cert_x", "cert_y.pdf", "cert_z"].length ∧
      extractZip out.archive = out.archive :=
  C1_min_entries_iteration_order [10, 20, 30] ["cert_x", "cert_y.pdf", "cert_z"] (by decide)

/-- C2: when two distinct names in the paired range normalize to the same
filename `f` (and no later paired name also normalizes to `f`), the resolved
archive holds exactly one entry under `f`, with the content of the
later-processed page, and strictly fewer than `min N M` entries overall. -/
theorem C2_collision_last_write (pages : List Page) (names : List String)
    (i j : Nat) (f : String) (hij : i < j)
    (hjt : j < min pages.length names.length)
    (_hne : names.getD i "" ≠ names.getD j "")
    (hfi : normalizePdfName (names.getD i "") = f)
    (hfj : normalizePdfName (names.getD j "") = f)
    (hlast : ∀ k, j < k → k < min pages.length names.length →
      normalizePdfName (names.getD k "") ≠ f) :
    ∃ out, pipeline pages (names.map PyVal.str) = some out ∧
      (extractZip out.archive).filter (fun p => p.1 == f) = [(f, pages.getD j 0)] ∧
      (extractZip out.archive).length < min pages.length names.length := by
  have hnotnodup : ¬ (((List.range (min pages.length names.length)).map
      (fun k => (normalizePdfName (names.getD k ""), pages.getD k 0))).map Prod.fst).Nodup := by
    rw [List.map_map]
    intro hnd
    have hpw : List.Pairwise
        (fun a b => normalizePdfName (names.getD a "") ≠ normalizePdfName (names.getD b ""))
        (List.range (min pages.length names.length)) := by
      have := List.pairwise_map.mp hnd
      exact this.imp (fun h => h)
    have hij' := (List.pairwise_iff_getElem.mp hpw) i j
      (by simpa using lt_trans hij hjt) (by simpa using hjt) hij
    simp only [List.getElem_range] at hij'
    exact hij' (hfi.trans hfj.symm)
  refine ⟨_, pipeline_str pages names, ?_, ?_⟩
  · have hfind := find?_reverse_rangeMap
      (fun k => (normalizePdfName (names.getD k ""), pages.getD k 0)) f
      (min pages.length names.length) j hjt hfj hlast
    rw [extractZip_filter, hfind]
    show [(normalizePdfName (names.getD j ""), pages.getD j 0)] = [(f, pages.getD j 0)]
    rw [hfj]
  · calc (extractZip _).length
        < ((List.range (min pages.length names.length)).map
            (fun k => (normalizePdfName (names.getD k ""), pages.getD k 0))).length :=
          extractZip_length_lt _ hnotnodup
      _ = min pages.length names.length := by simp

/-- Witness for C2 at the spec's scenario: two pages, names `["x", "x.pdf"]`,
both normalizing to `x.pdf`; the surviving entry holds page 1. -/
theorem C2_collision_last_write_witness :
    ∃ out, pipeline [10, 20] (["x", "x.pdf"].map PyVal.str) = some out ∧
      (extractZip out.archive).filter (fun p => p.1 == "x.pdf") = [("x.pdf", [10, 20].getD 1 0)] ∧
      (extractZip out.archive).length < min [10, 20].length ["x", "x.pdf"].length :=
  C2_collision_last_write [10, 20] ["x", "x.pdf"] 0 1 "x.pdf" (by decide) (by decide)
    (by decide) (by decide) (by decide)
    (fun k h1 h2 => absurd h2 (Nat.not_lt.mpr h1))

/-- The code's test `filename.lower().endswith('.pdf')` agrees with the
spec-side reading "the last four characters, lower-cased, are `.pdf`". -/
theorem pyTest_eq_hasPdfSuffixCI (s : String) :
    pyEndsWith (pyLower s) ".pdf" = hasPdfSuffixCI s := by
  rw [pyEndsWith, pyLower, hasPdfSuffixCI]
  refine Bool.eq_iff_iff.mpr ?_
  rw [List.isSuffixOf_iff_suffix, beq_iff_eq, List.suffix_iff_eq_drop, eq_comm]
  show _ ↔ (s.data.map Char.toLower).drop ((s.data.map Char.toLower).length - 4) =
    ['.', 'p', 'd', 'f']
  norm_num

/-- The stored key always carries the case-insensitive ".pdf" suffix. -/
theorem hasPdfSuffixCI_normalizePdfName (s : String) :
    hasPdfSuffixCI (normalizePdfName s) = true := by
  rw [normalizePdfName, pyTest_eq_hasPdfSuffixCI]
  by_cases h : hasPdfSuffixCI s = true
  · rw [if_pos h]
    exact h
  · rw [if_neg h, hasPdfSuffixCI]
    have hdata : (s ++ ".pdf").data = s.data ++ ['.', 'p', 'd', 'f'] := rfl
    have hlow : (['.', 'p', 'd', 'f'].map Char.toLower) = ['.', 'p', 'd', 'f'] := by decide
    rw [hdata, List.map_append, hlow]
    have hlen : (s.data.map Char.toLower ++ ['.', 'p', 'd', 'f']).length - 4 =
        (s.data.map Char.toLower).length := by
      simp [List.length_append]
    rw [hlen, List.drop_left]
    simp

/-- Normalization appends the suffix at most once: a normalized key is left
unchanged by a second normalization. -/
theorem normalizePdfName_idem (s : String) :
    normalizePdfName (normalizePdfName s) = normalizePdfName s := by
  conv_lhs => rw [normalizePdfName, pyTest_eq_hasPdfSuffixCI,
    hasPdfSuffixCI_normalizePdfName]
  rfl

/-- C3: for every name in the paired range, if the name lacks the ".pdf"
suffix (case-insensitively) the stored key is the name with ".pdf" appended
exactly once (the appended key carries the suffix, so a repeat of the rule
would leave it alone); a name already ending in ".pdf" in any letter case is
stored unchanged. -/
theorem C3_pdf_suffix_normalization (pages : List Page) (names : List String) :
    ∃ out, pipeline pages (names.map PyVal.str) = some out ∧
      ∀ i, i < min pages.length names.length →
        (hasPdfSuffixCI (names.getD i "") = true →
          (out.archive.getD i ("", 0)).1 = names.getD i "") ∧
        (hasPdfSuffixCI (names.getD i "") = false →
          (out.archive.getD i ("", 0)).1 = names.getD i "" ++ ".pdf") ∧
        hasPdfSuffixCI (out.archive.getD i ("", 0)).1 = true ∧
        normalizePdfName (out.archive.getD i ("", 0)).1 = (out.archive.getD i ("", 0)).1 := by
  refine ⟨_, pipeline_str pages names, ?_⟩
  intro i hi
  have hget : ((List.range (min pages.length names.length)).map
      (fun k => (normalizePdfName (names.getD k ""), pages.getD k 0))).getD i ("", 0) =
      (normalizePdfName (names.getD i ""), pages.getD i 0) := by
    rw [List.getD_eq_getElem _ _ (by simpa using hi)]
    simp
  rw [hget]
  refine ⟨?_, ?_, hasPdfSuffixCI_normalizePdfName _, normalizePdfName_idem _⟩
  · intro h
    show normalizePdfName (names.getD i "") = names.getD i ""
    rw [normalizePdfName, pyTest_eq_hasPdfSuffixCI, if_pos h]
  · intro h
    show normalizePdfName (names.getD i "") = names.getD i "" ++ ".pdf"
    rw [normalizePdfName, pyTest_eq_hasPdfSuffixCI, h]
    rfl

/-- Witness for C3: names covering lacking suffix, exact suffix, and
upper-case suffix, with three pages. -/
theorem C3_pdf_suffix_normalization_witness :
    ∃ out, pipeline [10, 20, 30] (["cert_x", "cert_y.pdf", "cert_z.PDF"].map PyVal.str) = some out ∧
      ∀ i, i < min [10, 20, 30].length ["cert_x", "cert_y.pdf", "cert_z.PDF"].length →
        (hasPdfSuffixCI (["cert_x", "cert_y.pdf", "cert_z.PDF"].getD i "") = true →
          (out.archive.getD i ("", 0)).1 = ["cert_x", "cert_y.pdf", "cert_z.PDF"].getD i "") ∧
        (hasPdfSuffixCI (["cert_x", "cert_y.pdf", "cert_z.PDF"].getD i "") = false →
          (out.archive.getD i ("", 0)).1 = ["cert_x", "cert_y.pdf", "cert_z.PDF"].getD i "" ++ ".pdf") ∧
        hasPdfSuffixCI (out.archive.getD i ("", 0)).1 = true ∧
        normalizePdfName (out.archive.getD i ("", 0)).1 = (out.archive.getD i ("", 0)).1 :=
  C3_pdf_suffix_normalization [10, 20, 30] ["cert_x", "cert_y.pdf", "cert_z.PDF"]

/-- A cell of a well-formed name column: missing (pandas reads blank Excel
cells as missing), or a non-empty string. -/
def wellFormedCell : Cell → Bool
  | .missing => true
  | .str s => !(s == "")
  | .num _ => false

/-- C4: a blank/missing cell is excluded from the name list before pairing —
dropping it shifts every subsequent name (and hence every subsequent
pairing) left by one — and, on a well-formed column, every retained entry
is a non-empty string. -/
theorem C4_dropna_shifts_left (pages : List Page) (cells₁ cells₂ : List Cell)
    (hwf : (cells₁ ++ cells₂).all wellFormedCell = true) :
    dropnaToList (cells₁ ++ Cell.missing :: cells₂) = dropnaToList (cells₁ ++ cells₂) ∧
    pipeline pages (dropnaToList (cells₁ ++ Cell.missing :: cells₂)) =
      pipeline pages (dropnaToList (cells₁ ++ cells₂)) ∧
    ∀ v ∈ dropnaToList (cells₁ ++ Cell.missing :: cells₂),
      ∃ s, v = PyVal.str s ∧ s ≠ "" := by
  have h1 : dropnaToList (cells₁ ++ Cell.missing :: cells₂) =
      dropnaToList (cells₁ ++ cells₂) := by
    simp [dropnaToList, List.filterMap_append, List.filterMap_cons]
  refine ⟨h1, by rw [h1], ?_⟩
  intro v hv
  rw [dropnaToList] at hv
  obtain ⟨c, hc, he⟩ := List.mem_filterMap.mp hv
  have hc' : c = Cell.missing ∨ c ∈ cells₁ ++ cells₂ := by
    rcases List.mem_append.mp hc with h | h
    · exact Or.inr (List.mem_append.mpr (Or.inl h))
    · rcases List.mem_cons.mp h with h | h
      · exact Or.inl h
      · exact Or.inr (List.mem_append.mpr (Or.inr h))
  cases c with
  | missing => simp at he
  | str s =>
    have hvs : v = PyVal.str s := by
      simp only at he
      exact (Option.some.injEq _ _ ▸ he).symm
    refine ⟨s, hvs, ?_⟩
    rcases hc' with h | h
    · exact absurd h (by simp)
    · have := List.all_eq_true.mp hwf _ h
      simpa [wellFormedCell] using this
  | num q =>
    rcases hc' with h | h
    · exact absurd h (by simp)
    · have := List.all_eq_true.mp hwf _ h
      simp [wellFormedCell] at this

/-- Witness for C4 at the spec's example: column `["A", blank, "B"]` pairs
exactly as `["A", "B"]` would. -/
theorem C4_dropna_shifts_left_witness :
    dropnaToList ([Cell.str "A"] ++ Cell.missing :: [Cell.str "B"]) =
      dropnaToList ([Cell.str "A"] ++ [Cell.str "B"]) ∧
    pipeline [10, 20] (dropnaToList ([Cell.str "A"] ++ Cell.missing :: [Cell.str "B"])) =
      pipeline [10, 20] (dropnaToList ([Cell.str "A"] ++ [Cell.str "B"])) ∧
    ∀ v ∈ dropnaToList ([Cell.str "A"] ++ Cell.missing :: [Cell.str "B"]),
      ∃ s, v = PyVal.str s ∧ s ≠ "" :=
  C4_dropna_shifts_left [10, 20] [Cell.str "A"] [Cell.str "B"] (by decide)

/-- C5: with more names than pages (`M > N`) the run still succeeds: the
advisory flag is set (the `st.warning` branch fires, not an error path), the
archive has exactly `N` entries, and those entries come from the first `N`
names only. -/
theorem C5_more_names_than_pages (pages : List Page) (names : List String)
    (h : pages.length < names.length) :
    ∃ out, pipeline pages (names.map PyVal.str) = some out ∧
      out.advisory = true ∧
      out.archive.length = pages.length ∧
      out.archive = (List.range pages.length).map
        (fun i => (normalizePdfName (names.getD i ""), pages.getD i 0)) := by
  have hmin : min pages.length names.length = pages.length :=
    Nat.min_eq_left (le_of_lt h)
  refine ⟨_, pipeline_str pages names, ?_, ?_, ?_⟩
  · exact decide_eq_true h
  · simp [hmin]
  · rw [hmin]

/-- Witness for C5 at the spec's scenario: two pages, names `["a","b","c"]`. -/
theorem C5_more_names_than_pages_witness :
    ∃ out, pipeline [10, 20] (["a", "b", "c"].map PyVal.str) = some out ∧
      out.advisory = true ∧
      out.archive.length = [10, 20].length ∧
      out.archive = (List.range [10, 20].length).map
        (fun i => (normalizePdfName (["a", "b", "c"].getD i ""), [10, 20].getD i 0)) :=
  C5_more_names_than_pages [10, 20] ["a", "b", "c"] (by decide)

/-- C6: the run is a pure function of its inputs — two runs on equal inputs
return equal results, byte-for-byte (the archive builder is modelled as the
deterministic collaborator the spec assumes). -/
theorem C6_deterministic (pages₁ pages₂ : List Page)
    (wb₁ wb₂ : List (String × Sheet)) (s₁ s₂ c₁ c₂ : String)
    (hp : pages₁ = pages₂) (hw : wb₁ = wb₂) (hs : s₁ = s₂) (hc : c₁ = c₂) :
    generate_and_zip_pdfs pages₁ wb₁ s₁ c₁ = generate_and_zip_pdfs pages₂ wb₂ s₂ c₂ := by
  rw [hp, hw, hs, hc]

/-- Witness for C6 on a concrete workbook and document. -/
theorem C6_deterministic_witness :
    generate_and_zip_pdfs [10] [("Sheet1", ⟨[("Name", [Cell.str "a"])]⟩)] "Sheet1" "Name" =
      generate_and_zip_pdfs [10] [("Sheet1", ⟨[("Name", [Cell.str "a"])]⟩)] "Sheet1" "Name" :=
  C6_deterministic [10] [10] [("Sheet1", ⟨[("Name", [Cell.str "a"])]⟩)]
    [("Sheet1", ⟨[("Name", [Cell.str "a"])]⟩)] "Sheet1" "Sheet1" "Name" "Name"
    rfl rfl rfl rfl

/-- C7: a requested column absent from the selected sheet makes the run
return the `columnNotFound` failure carrying the sheet's full header list,
and no archive — not even a partial one — is produced. -/
theorem C7_column_not_found (pages : List Page) (wb : List (String × Sheet))
    (sheet_name filename_col : String) (df : Sheet)
    (hsheet : readExcel wb sheet_name = some df)
    (hcol : df.columns.contains filename_col = false) :
    generate_and_zip_pdfs pages wb sheet_name filename_col =
      .columnNotFound df.columns ∧
    ∀ out, generate_and_zip_pdfs pages wb sheet_name filename_col ≠ .ok out := by
  have hnotmem : filename_col ∉ df.columns := by simpa using hcol
  have hmain : generate_and_zip_pdfs pages wb sheet_name filename_col =
      .columnNotFound df.columns := by
    simp [generate_and_zip_pdfs, hsheet, hnotmem]
  exact ⟨hmain, fun out h => by rw [hmain] at h; exact GenResult.noConfusion h⟩

/-- Witness for C7: sheet with only a `Name` column, requested column
`Other`. -/
theorem C7_column_not_found_witness :
    generate_and_zip_pdfs [10] [("Sheet1", ⟨[("Name", [Cell.str "a"])]⟩)] "Sheet1" "Other" =
      .columnNotFound (Sheet.mk [("Name", [Cell.str "a"])]).columns ∧
    ∀ out, generate_and_zip_pdfs [10] [("Sheet1", ⟨[("Name", [Cell.str "a"])]⟩)] "Sheet1" "Other" ≠
      .ok out :=
  C7_column_not_found [10] [("Sheet1", ⟨[("Name", [Cell.str "a"])]⟩)] "Sheet1" "Other"
    (Sheet.mk [("Name", [Cell.str "a"])]) rfl (by decide)

/-- C8: a requested sheet absent from the workbook makes the run return the
`sheetNotFound` failure (the `ValueError` handler), and no archive is
produced. -/
theorem C8_sheet_not_found (pages : List Page) (wb : List (String × Sheet))
    (sheet_name filename_col : String)
    (hsheet : readExcel wb sheet_name = none) :
    generate_and_zip_pdfs pages wb sheet_name filename_col = .sheetNotFound ∧
    ∀ out, generate_and_zip_pdfs pages wb sheet_name filename_col ≠ .ok out := by
  have hmain : generate_and_zip_pdfs pages wb sheet_name filename_col =
      .sheetNotFound := by
    simp [generate_and_zip_pdfs, hsheet]
  exact ⟨hmain, fun out h => by rw [hmain] at h; exact GenResult.noConfusion h⟩

/-- Witness for C8: workbook with only `Sheet1`, requested sheet `Missing`. -/
theorem C8_sheet_not_found_witness :
    generate_and_zip_pdfs [10] [("Sheet1", ⟨[("Name", [Cell.str "a"])]⟩)] "Missing" "Name" =
      .sheetNotFound ∧
    ∀ out, generate_and_zip_pdfs [10] [("Sheet1", ⟨[("Name", [Cell.str "a"])]⟩)] "Missing" "Name" ≠
      .ok out :=
  C8_sheet_not_found [10] [("Sheet1", ⟨[("Name", [Cell.str "a"])]⟩)] "Missing" "Name" rfl

/-- C9: the fraction reported after processing page `i` is `(i+1)/M` with `M`
the full name-list length (not `min N M`); consequently, when `0 < N < M`,
the last reported fraction is `N/M`, strictly below `1`. -/
theorem C9_progress_fraction_over_M (pages : List Page) (names : List String) :
    ∃ out, pipeline pages (names.map PyVal.str) = some out ∧
      out.progress = (List.range (min pages.length names.length)).map
        (fun i : Nat => ((i : ℚ) + 1) / (names.length : ℚ)) ∧
      (0 < pages.length → pages.length < names.length →
        out.progress.getLast? = some ((pages.length : ℚ) / (names.length : ℚ)) ∧
        (pages.length : ℚ) / (names.length : ℚ) < 1) := by
  refine ⟨_, pipeline_str pages names, rfl, ?_⟩
  intro hN hNM
  have hmin : min pages.length names.length = pages.length :=
    Nat.min_eq_left (le_of_lt hNM)
  have hM : (0 : ℚ) < (names.length : ℚ) := by
    exact_mod_cast Nat.lt_of_lt_of_le hN (le_of_lt hNM)
  constructor
  · show ((List.range (min pages.length names.length)).map
        (fun j : Nat => ((j : ℚ) + 1) / (names.length : ℚ))).getLast? =
        some ((pages.length : ℚ) / (names.length : ℚ))
    rw [hmin]
    obtain ⟨k, hk⟩ : ∃ k, pages.length = k + 1 := ⟨pages.length - 1, by omega⟩
    rw [hk, List.range_succ, List.map_append]
    simp only [List.map_cons, List.map_nil]
    rw [List.getLast?_concat]
    congr 1
    push_cast
    ring
  · rw [div_lt_one hM]
    exact_mod_cast hNM

/-- Witness for C9: two pages, names `["a","b","c"]`; last fraction 2/3. -/
theorem C9_progress_fraction_over_M_witness :
    ∃ out, pipeline [10, 20] (["a", "b", "c"].map PyVal.str) = some out ∧
      out.progress = (List.range (min [10, 20].length ["a", "b", "c"].length)).map
        (fun i : Nat => ((i : ℚ) + 1) / (["a", "b", "c"].length : ℚ)) ∧
      (0 < [10, 20].length → [10, 20].length < ["a", "b", "c"].length →
        out.progress.getLast? = some (([10, 20].length : ℚ) / ((["a", "b", "c"].length : Nat) : ℚ)) ∧
        (([10, 20].length : Nat) : ℚ) / ((["a", "b", "c"].length : Nat) : ℚ) < 1) :=
  C9_progress_fraction_over_M [10, 20] ["a", "b", "c"]

/-- A non-string value within reach of the loop (index below both bounds)
makes the loop raise before finishing: the whole traversal aborts. -/
theorem zipLoop_none_of_num (M N : Nat) (pages : List Page) :
    ∀ (vs : List PyVal) (i j : Nat) (q : Int), j < vs.length → i + j < N →
    vs.getD j (.str "") = .num q → zipLoop M N pages vs i = none
  | [], _, j, _, hj, _, _ => absurd hj (by simp)
  | v :: vs', i, j, q, hj, hjN, hv => by
    have hiN : ¬ i + 1 > N := by omega
    cases v with
    | num q' =>
      rw [zipLoop, if_neg hiN]
    | str s =>
      cases j with
      | zero => simp [List.getD_cons_zero] at hv
      | succ j' =>
        rw [List.getD_cons_succ] at hv
        rw [zipLoop, if_neg hiN,
          zipLoop_none_of_num M N pages vs' (i + 1) j' q
            (by simpa using hj) (by omega) hv]

/-- C10: a non-missing, non-string cell at a paired-range position of the
name column survives `dropna` and then crashes the extension check, so the
whole run collapses into the catch-all failure: no archive is delivered,
not even the entries of earlier well-formed names. -/
theorem C10_nonstring_cell_aborts (pages : List Page) (wb : List (String × Sheet))
    (sheet_name filename_col : String) (df : Sheet)
    (hsheet : readExcel wb sheet_name = some df)
    (hcol : df.columns.contains filename_col = true)
    (j : Nat) (q : Int)
    (hj : j < (dropnaToList (df.col filename_col)).length)
    (hjN : j < pages.length)
    (hv : (dropnaToList (df.col filename_col)).getD j (.str "") = .num q) :
    generate_and_zip_pdfs pages wb sheet_name filename_col = .unexpectedFailure ∧
    ∀ out, generate_and_zip_pdfs pages wb sheet_name filename_col ≠ .ok out := by
  have hloop := zipLoop_none_of_num (dropnaToList (df.col filename_col)).length
    pages.length pages (dropnaToList (df.col filename_col)) 0 j q hj (by omega) hv
  have hmem : filename_col ∈ df.columns := by simpa using hcol
  have hmain : generate_and_zip_pdfs pages wb sheet_name filename_col =
      .unexpectedFailure := by
    simp [generate_and_zip_pdfs, hsheet, hmem, pipeline, hloop]
  exact ⟨hmain, fun out h => by rw [hmain] at h; exact GenResult.noConfusion h⟩

/-- Witness for C10: column `["alice", 3]` with two pages — the numeric cell
at index 1 is in the paired range, so the run fails wholesale even though
`alice` at index 0 was well-formed. -/
theorem C10_nonstring_cell_aborts_witness :
    generate_and_zip_pdfs [10, 20] [("Sheet1", ⟨[("Name", [Cell.str "alice", Cell.num 3])]⟩)]
      "Sheet1" "Name" = .unexpectedFailure ∧
    ∀ out, generate_and_zip_pdfs [10, 20] [("Sheet1", ⟨[("Name", [Cell.str "alice", Cell.num 3])]⟩)]
      "Sheet1" "Name" ≠ .ok out :=
  C10_nonstring_cell_aborts [10, 20] [("Sheet1", ⟨[("Name", [Cell.str "alice", Cell.num 3])]⟩)]
    "Sheet1" "Name" (Sheet.mk [("Name", [Cell.str "alice", Cell.num 3])]) rfl (by decide)
    1 3 (by decide) (by decide) (by decide)
